import Mathlib

/-!
Verification development for the DataBrewery "extensible" library.

The Python sources (extensible/options.py, extensible/extensible.py,
extensible/errors.py) are shallowly embedded below:

* Python dicts become association lists (`List (String × _)`) built with an
  insert-or-overwrite operation `dinsert` that preserves Python dict
  insertion-order semantics (updating an existing key keeps its position,
  a fresh key is appended), looked up with `dget`.
* Python exceptions become an explicit error type `PyErr` carried in
  `Except`.
* Python `str.lower()` is modelled on the ASCII letters by `pyLower`
  (all keys appearing in the library and its tests are ASCII).
* Python `float` values are modelled as rationals; the exact textual
  rendering of a float and the full numeric-literal grammar accepted by
  `int(...)` / `float(...)` are abstracted by simple executable parsers,
  none of which any statement below depends on.
-/

namespace Extensible

/-- Lookup in an association list (first entry whose key matches wins;
lists built with `dinsert` have distinct keys, matching Python dicts). -/
def dget {A : Type} : List (String × A) → String → Option A
  | [], _ => none
  | kv :: rest, k => if kv.1 = k then some kv.2 else dget rest k

/-- Python dict assignment `d[k] = v`: overwrite the value of an existing
key in place, otherwise append the new binding at the end. -/
def dinsert {A : Type} : List (String × A) → String → A → List (String × A)
  | [], k, v => [(k, v)]
  | kv :: rest, k, v => if kv.1 = k then (k, v) :: rest else kv :: dinsert rest k v

/-- Python `str.lower()` on one character, modelled on the ASCII letters. -/
def charLower (c : Char) : Char :=
  if c = 'A' then 'a' else if c = 'B' then 'b' else if c = 'C' then 'c'
  else if c = 'D' then 'd' else if c = 'E' then 'e' else if c = 'F' then 'f'
  else if c = 'G' then 'g' else if c = 'H' then 'h' else if c = 'I' then 'i'
  else if c = 'J' then 'j' else if c = 'K' then 'k' else if c = 'L' then 'l'
  else if c = 'M' then 'm' else if c = 'N' then 'n' else if c = 'O' then 'o'
  else if c = 'P' then 'p' else if c = 'Q' then 'q' else if c = 'R' then 'r'
  else if c = 'S' then 's' else if c = 'T' then 't' else if c = 'U' then 'u'
  else if c = 'V' then 'v' else if c = 'W' then 'w' else if c = 'X' then 'x'
  else if c = 'Y' then 'y' else if c = 'Z' then 'z' else c

/-- Python `str.lower()`, modelled on the ASCII letters. -/
def pyLower (s : String) : String := ⟨s.data.map charLower⟩

/-- options.py: `OptionValue = Union[str, float, bool, int]`, as a closed
sum (floats as rationals). -/
inductive OptionValue : Type
  | vStr (s : String)
  | vInt (n : Int)
  | vFloat (q : Rat)
  | vBool (b : Bool)
  deriving DecidableEq, Repr

/-- options.py: `class OptionType(Enum)`. -/
inductive OptionType : Type
  | str
  | int
  | bool
  | float
  deriving DecidableEq, Repr

/-- options.py: `class Option` (named `ExtOption` here because `Option`
is taken by Lean's core library). -/
structure ExtOption : Type where
  name : String
  default : Option OptionValue
  type : OptionType
  desc : Option String
  label : String
  is_required : Bool
  deriving DecidableEq, Repr

/-- options.py: `Option.__init__`. A missing `type` argument is `none`
(Python `None`; enum members are always truthy, so `type or OptionType.str`
is a `None` check), a missing `label` is `none`, and Python's
`label or name` also replaces an empty-string label by the name. -/
def makeOption (name : String) (type : Option OptionType)
    (default : Option OptionValue) (desc : Option String)
    (label : Option String) ( is_required : Bool) : ExtOption :=
  { name := name
    default := default
    type := type.getD OptionType.str
    desc := desc
    label := match label with
      | some l => if l.isEmpty then name else l
      | none => name
    is_required := is_required }

/-- errors.py exception hierarchy plus Python's built-in errors, flattened
into one sum. `optionRequiredError` is the subclass `OptionRequiredError`
of `ConfigurationError`; `valueError` abstracts `ValueError` payloads. -/
inductive PyErr : Type
  | valueError (info : String)
  | internalError (msg : String)
  | configurationError (msg : String)
  | optionRequiredError (name : String)
  | keyError (key : String)
  deriving DecidableEq, Repr

/-- options.py: `TRUE_VALUES`. -/
def TRUE_VALUES : List String := ["1", "true", "yes", "on"]

/-- options.py: `FALSE_VALUES`. -/
def FALSE_VALUES : List String := ["0", "false", "no", "off"]

/-- options.py: `value_to_bool`. Python checks `isinstance(value, bool)`
before `isinstance(value, (int, float))`, which on the closed sum is the
per-constructor dispatch below; numeric truthiness is `!= 0`. -/
def value_to_bool : Option OptionValue → Except PyErr (Option Bool)
  | none => .ok none
  | some (.vBool b) => .ok (some b)
  | some (.vInt n) => .ok (some (n != 0))
  | some (.vFloat q) => .ok (some (q != 0))
  | some (.vStr s) =>
    if s ∈ TRUE_VALUES then .ok (some true)
    else if s ∈ FALSE_VALUES then .ok (some false)
    else .error (.valueError s)

/-- The numeric value of a nonempty all-digit character list. -/
def digitsVal (l : List Char) : Option Nat :=
  if l.isEmpty then none
  else if l.all (fun c => 48 ≤ c.toNat && c.toNat ≤ 57) then
    some (l.foldl (fun n c => n * 10 + (c.toNat - 48)) 0)
  else none

/-- Python `int(string)`: optional sign followed by digits (whitespace and
underscore tolerance of the Python literal grammar is not modelled). -/
def pyParseInt (s : String) : Option Int :=
  match s.data with
  | '-' :: rest => (digitsVal rest).map (fun n => -(n : Int))
  | '+' :: rest => (digitsVal rest).map (fun n => (n : Int))
  | l => (digitsVal l).map (fun n => (n : Int))

/-- Python `int(float)` truncates toward zero. -/
def ratTrunc (q : Rat) : Int := Int.tdiv q.num q.den

/-- options.py: `value_to_int`. -/
def value_to_int : Option OptionValue → Except PyErr (Option Int)
  | none => .ok none
  | some (.vBool b) => .ok (some (if b then 1 else 0))
  | some (.vInt n) => .ok (some n)
  | some (.vStr s) =>
    match pyParseInt s with
    | some n => .ok (some n)
    | none => .error (.valueError s)
  | some (.vFloat q) => .ok (some (ratTrunc q))

/-- Python `float(string)` for an unsigned decimal literal, over the
character list. -/
def parseDecimalChars (l : List Char) : Option Rat :=
  match l.splitOn '.' with
  | [a] => (digitsVal a).map (fun n => (n : Rat))
  | [a, b] =>
    match digitsVal a, digitsVal b with
    | some ip, some fp => some ((ip : Rat) + (fp : Rat) / ((10 : Rat) ^ b.length))
    | _, _ => none
  | _ => none

/-- Python `float(string)`: optional sign and a decimal literal. -/
def pyParseFloat (s : String) : Option Rat :=
  match s.data with
  | '-' :: rest => (parseDecimalChars rest).map Neg.neg
  | '+' :: rest => parseDecimalChars rest
  | l => parseDecimalChars l

/-- options.py: `value_to_float`. -/
def value_to_float : Option OptionValue → Except PyErr (Option Rat)
  | none => .ok none
  | some (.vBool b) => .ok (some (if b then 1 else 0))
  | some (.vInt n) => .ok (some (n : Rat))
  | some (.vFloat q) => .ok (some q)
  | some (.vStr s) =>
    match pyParseFloat s with
    | some q => .ok (some q)
    | none => .error (.valueError s)

/-- Python `str(value)` on a float, abstracted as the rational rendering. -/
def floatRepr (q : Rat) : String := toString q

/-- options.py: `value_to_string`. -/
def value_to_string : Option OptionValue → Except PyErr (Option String)
  | none => .ok none
  | some (.vBool b) => .ok (some (if b then "true" else "false"))
  | some (.vStr s) => .ok (some s)
  | some (.vInt n) => .ok (some (toString n))
  | some (.vFloat q) => .ok (some (floatRepr q))

/-- options.py: `cast_option_value`. The `InternalError` arm for an unknown
option type is unreachable on the closed enum. The cast result is re-tagged
with the target constructor so a casted mapping again holds option values. -/
def cast_option_value (value : Option OptionValue) (option : ExtOption) :
    Except PyErr (Option OptionValue) :=
  match option.type with
  | .str => (value_to_string value).map (fun r => r.map .vStr)
  | .int => (value_to_int value).map (fun r => r.map .vInt)
  | .float => (value_to_float value).map (fun r => r.map .vFloat)
  | .bool => (value_to_bool value).map (fun r => r.map .vBool)

/-- options.py: `class OptionDict` internal state: `_dict` (resolved
values, lowercase keys) and `_options` (descriptors, lowercase keys). -/
structure OptionDict : Type where
  dict : List (String × OptionValue)
  options : List (String × ExtOption)
  deriving DecidableEq, Repr

/-- options.py, `OptionDict.__init__`: the `keymap` comprehension
`dict((key.lower(), key) for key in mapping)` (later entries overwrite
earlier ones). -/
def keymapOf (mapping : List (String × OptionValue)) : List (String × String) :=
  mapping.foldl (fun m kv => dinsert m (pyLower kv.1) kv.1) []

/-- options.py, `OptionDict.__init__`: the `for option in options` loop,
threading `_dict` and `_options`. A `keymap` entry whose original key is
missing from `mapping` would be a Python `KeyError`; it is unreachable for
`keymapOf mapping`. -/
def initLoop (mapping : List (String × OptionValue))
    (keymap : List (String × String)) :
    List ExtOption → List (String × OptionValue) → List (String × ExtOption) →
    Except PyErr (List (String × OptionValue) × List (String × ExtOption))
  | [], d, os => .ok (d, os)
  | option :: rest, d, os =>
    let name := pyLower option.name
    let os' := dinsert os name option
    match dget keymap name with
    | some key =>
      match dget mapping key with
      | some v => initLoop mapping keymap rest (dinsert d name v) os'
      | none => .error (.keyError key)
    | none =>
      if option.is_required then .error (.optionRequiredError name)
      else match option.default with
        | some v => initLoop mapping keymap rest (dinsert d name v) os'
        | none => initLoop mapping keymap rest d os'

/-- options.py, `OptionDict.__init__`: the unknown-key set
`set(mapping.keys()) - set(self._dict.keys())`, as a deduplicated list.
Note that the raw keys enter in their ORIGINAL case while `_dict` keys are
lowercased. -/
def extraKeysOf (mapping : List (String × OptionValue))
    (d : List (String × OptionValue)) : List String :=
  ((mapping.map Prod.fst).filter (fun k => (dget d k).isNone)).dedup

/-- Lexicographic comparison of char lists by code point (Python string
comparison). -/
def charsLe : List Char → List Char → Bool
  | [], _ => true
  | _ :: _, [] => false
  | a :: as, b :: bs => if a < b then true else if b < a then false else charsLe as bs

/-- Python `<=` on strings. -/
def strLe (a b : String) : Bool := charsLe a.data b.data

/-- Python `sorted` on a list of strings. -/
def sortStrings (l : List String) : List String :=
  List.insertionSort (fun a b => strLe a b = true) l

/-- options.py: `OptionDict.__init__`. -/
def OptionDict.init (mapping : List (String × OptionValue))
    (options : List ExtOption) : Except PyErr OptionDict :=
  match initLoop mapping (keymapOf mapping) options [] [] with
  | .error e => .error e
  | .ok (d, os) =>
    let extra := extraKeysOf mapping d
    if extra.isEmpty then .ok { dict := d, options := os }
    else .error (.configurationError
      ("Unknown options: " ++ String.intercalate ", " (sortStrings extra)))

/-- options.py: `OptionDict.__getitem__` (returns `none` where Python
raises `KeyError`). -/
def OptionDict.getitem (d : OptionDict) (key : String) : Option OptionValue :=
  dget d.dict (pyLower key)

/-- options.py: `OptionDict.__setitem__` — unconditionally raises
`InternalError`; in this pure model no updated dictionary is ever
produced, so the contents are untouched by construction. -/
def OptionDict.setitem (d : OptionDict) (key : String) (value : OptionValue) :
    Except PyErr OptionDict :=
  .error (.internalError "OptionDictionary is immutable")

/-- options.py: `OptionDict.get` with the default `default=None`. -/
def OptionDict.get (d : OptionDict) (option : String) : Option OptionValue :=
  dget d.dict (pyLower option)

/-- options.py, `OptionDict.casted`: the `for key in self._dict.keys()`
loop. A key with no `_options` entry would be a Python `KeyError`;
construction always records a descriptor for every stored key. -/
def castedLoop (d : OptionDict) :
    List (String × OptionValue) →
    Except PyErr (List (String × Option OptionValue))
  | [] => .ok []
  | (key, _) :: rest =>
    match dget d.options key with
    | none => .error (.keyError key)
    | some option =>
      match cast_option_value (d.get key) option with
      | .error e => .error e
      | .ok cv =>
        match castedLoop d rest with
        | .error e => .error e
        | .ok r => .ok ((key, cv) :: r)

/-- options.py: `OptionDict.casted`. -/
def OptionDict.casted (d : OptionDict) :
    Except PyErr (List (String × Option OptionValue)) :=
  castedLoop d d.dict

/-- extensible.py: `class ExtensionRegistry`, generic over the type `C`
standing for the registered classes. `name` is the extension-point type,
`classes` the eager mapping, `modules` the lazy name-to-module mapping. -/
structure ExtensionRegistry (C : Type) : Type where
  name : String
  classes : List (String × C)
  modules : List (String × String)
  deriving DecidableEq, Repr

/-- extensible.py: `ExtensionRegistry.__init__`. -/
def ExtensionRegistry.empty (C : Type) (name : String) : ExtensionRegistry C :=
  { name := name, classes := [], modules := [] }

/-- extensible.py: `ExtensionRegistry.register` (the `issubclass` sanity
assertion is type-level here). Existing entries are replaced. -/
def ExtensionRegistry.register {C : Type} (r : ExtensionRegistry C)
    (name : String) (ext : C) : ExtensionRegistry C :=
  { r with classes := dinsert r.classes name ext }

/-- extensible.py: `ExtensionRegistry.register_lazy`. -/
def ExtensionRegistry.register_lazy {C : Type} (r : ExtensionRegistry C)
    (name : String) (module : String) : ExtensionRegistry C :=
  { r with modules := dinsert r.modules name module }

/-- The message of the internal error raised for an unresolved extension
name, from the f-string in `ExtensionRegistry.extension`. -/
def unknownExtensionMsg (name ptype : String) : String :=
  "Unknown extension \x27" ++ name ++ "\x27 of type \x27" ++ ptype ++ "\x27"

/-- extensible.py: `ExtensionRegistry.extension`. The side effect of
`import_module` (the loaded module re-registering extensions in this
registry) is modelled by the `load` argument, applied to the module name
and the current registry state exactly when the source calls
`import_module`. The possibly-updated registry is returned with the
result. -/
def ExtensionRegistry.extension {C : Type}
    (load : String → ExtensionRegistry C → ExtensionRegistry C)
    (r : ExtensionRegistry C) (name : String) :
    Except PyErr (C × ExtensionRegistry C) :=
  let r1 :=
    match dget r.classes name, dget r.modules name with
    | none, some m => load m r
    | _, _ => r
  match dget r1.classes name with
  | some ext => .ok (ext, r1)
  | none => .error (.internalError (unknownExtensionMsg name r1.name))

/-- extensible.py: `ExtensionRegistry.registered_names`:
`sorted(list(set(classes.keys()) | set(modules.keys())))`. -/
def ExtensionRegistry.registered_names {C : Type} (r : ExtensionRegistry C) :
    List String :=
  sortStrings ((r.classes.map Prod.fst ++ r.modules.map Prod.fst).dedup)

/-! ### Concrete schemas and states used in evaluations -/

/-- Schema entry from the spec case-insensitivity example:
`Option("Indent", INT)`. -/
def exOptIndentUC : ExtOption :=
  makeOption "Indent" (some OptionType.int) none none none false

/-- Schema entry from the spec default example:
`Option("indent", INT, default=4)`. -/
def exOptIndent4 : ExtOption :=
  makeOption "indent" (some OptionType.int) (some (OptionValue.vInt 4)) none none false

/-- Schema entry from the spec required example:
`Option("x", STR, is_required=True)`. -/
def exOptXReq : ExtOption :=
  makeOption "x" (some OptionType.str) none none none true

/-- Schema entry from the spec unknown-rejection example: `Option("x", STR)`. -/
def exOptX : ExtOption :=
  makeOption "x" (some OptionType.str) none none none false

/-- The dictionary produced for raw `{}` against `[exOptIndent4]`. -/
def exDict6 : OptionDict :=
  { dict := [("indent", OptionValue.vInt 4)]
    options := [("indent", exOptIndent4)] }

/-- The casted view of `exDict6`. -/
def exCasted6 : List (String × Option OptionValue) :=
  [("indent", some (OptionValue.vInt 4))]

/-- An empty catalog for the extension point `"printer"`. -/
def exRegistryPrinter : ExtensionRegistry Nat :=
  ExtensionRegistry.empty Nat "printer"

/-- A module loader with no registration side effect. -/
def exLoadNothing : String → ExtensionRegistry Nat → ExtensionRegistry Nat :=
  fun _ r => r

/-! ### Association-list and lowercasing lemmas -/

theorem dget_dinsert {A : Type} (m : List (String × A)) (k s : String) (v : A) :
    dget (dinsert m k v) s = if k = s then some v else dget m s := by
  induction m with
  | nil => simp [dinsert, dget]
  | cons kv rest ih =>
    by_cases hk : kv.1 = k
    · subst hk
      by_cases hs : kv.1 = s
      · subst hs
        simp [dinsert, dget]
      · simp [dinsert, dget, hs]
    · by_cases hs : kv.1 = s
      · subst hs
        have : ¬ k = kv.1 := fun h => hk h.symm
        simp [dinsert, dget, hk, this]
      · simp [dinsert, dget, hk, hs, ih]

theorem dget_isSome_iff_mem {A : Type} (l : List (String × A)) (s : String) :
    (dget l s).isSome = true ↔ s ∈ l.map Prod.fst := by
  induction l with
  | nil => simp [dget]
  | cons kv rest ih =>
    simp only [List.map_cons, List.mem_cons]
    by_cases h : kv.1 = s
    · subst h
      simp [dget]
    · rw [dget, if_neg h]
      constructor
      · exact fun hh => Or.inr (ih.mp hh)
      · rintro (rfl | hm)
        · exact absurd rfl h
        · exact ih.mpr hm

theorem charLower_idem (c : Char) : charLower (charLower c) = charLower c := by
  by_cases h1 : c = 'A'
  · subst h1; decide
  by_cases h2 : c = 'B'
  · subst h2; decide
  by_cases h3 : c = 'C'
  · subst h3; decide
  by_cases h4 : c = 'D'
  · subst h4; decide
  by_cases h5 : c = 'E'
  · subst h5; decide
  by_cases h6 : c = 'F'
  · subst h6; decide
  by_cases h7 : c = 'G'
  · subst h7; decide
  by_cases h8 : c = 'H'
  · subst h8; decide
  by_cases h9 : c = 'I'
  · subst h9; decide
  by_cases h10 : c = 'J'
  · subst h10; decide
  by_cases h11 : c = 'K'
  · subst h11; decide
  by_cases h12 : c = 'L'
  · subst h12; decide
  by_cases h13 : c = 'M'
  · subst h13; decide
  by_cases h14 : c = 'N'
  · subst h14; decide
  by_cases h15 : c = 'O'
  · subst h15; decide
  by_cases h16 : c = 'P'
  · subst h16; decide
  by_cases h17 : c = 'Q'
  · subst h17; decide
  by_cases h18 : c = 'R'
  · subst h18; decide
  by_cases h19 : c = 'S'
  · subst h19; decide
  by_cases h20 : c = 'T'
  · subst h20; decide
  by_cases h21 : c = 'U'
  · subst h21; decide
  by_cases h22 : c = 'V'
  · subst h22; decide
  by_cases h23 : c = 'W'
  · subst h23; decide
  by_cases h24 : c = 'X'
  · subst h24; decide
  by_cases h25 : c = 'Y'
  · subst h25; decide
  by_cases h26 : c = 'Z'
  · subst h26; decide
  have hself : charLower c = c := by
    unfold charLower
    rw [if_neg h1, if_neg h2, if_neg h3, if_neg h4, if_neg h5, if_neg h6, if_neg h7, if_neg h8, if_neg h9, if_neg h10, if_neg h11, if_neg h12, if_neg h13, if_neg h14, if_neg h15, if_neg h16, if_neg h17, if_neg h18, if_neg h19, if_neg h20, if_neg h21, if_neg h22, if_neg h23, if_neg h24, if_neg h25, if_neg h26]
  rw [hself]
  exact hself

theorem pyLower_idem (s : String) : pyLower (pyLower s) = pyLower s := by
  simp [pyLower, charLower_idem, List.map_map, Function.comp_def]

/-! ### Keymap lemmas -/

theorem keymapOf_aux_dget_none (l : List (String × OptionValue))
    (m0 : List (String × String)) (s : String) :
    dget (l.foldl (fun m kv => dinsert m (pyLower kv.1) kv.1) m0) s = none ↔
      (dget m0 s = none ∧ ∀ kv ∈ l, pyLower kv.1 ≠ s) := by
  induction l generalizing m0 with
  | nil => simp
  | cons kv rest ih =>
    simp only [List.foldl_cons, ih, dget_dinsert, List.mem_cons]
    constructor
    · rintro ⟨h0, hrest⟩
      by_cases h : pyLower kv.1 = s
      · simp [h] at h0
      · exact ⟨by simpa [h] using h0, by
          rintro kv' (rfl | hm)
          · exact h
          · exact hrest kv' hm⟩
    · rintro ⟨h0, hall⟩
      have h : pyLower kv.1 ≠ s := hall kv (Or.inl rfl)
      exact ⟨by simp [h, h0], fun kv' hm => hall kv' (Or.inr hm)⟩

theorem keymapOf_dget_none (mapping : List (String × OptionValue)) (s : String) :
    dget (keymapOf mapping) s = none ↔ ∀ kv ∈ mapping, pyLower kv.1 ≠ s := by
  simpa [keymapOf, dget] using keymapOf_aux_dget_none mapping [] s

theorem keymapOf_aux_dget_some (l : List (String × OptionValue))
    (m0 : List (String × String)) (s k : String)
    (h : dget (l.foldl (fun m kv => dinsert m (pyLower kv.1) kv.1) m0) s = some k) :
    dget m0 s = some k ∨ k ∈ l.map Prod.fst := by
  induction l generalizing m0 with
  | nil => simpa using h
  | cons kv rest ih =>
    rcases ih _ h with h1 | h1
    · rw [dget_dinsert] at h1
      by_cases he : pyLower kv.1 = s
      · simp [he] at h1
        simp [h1]
      · simp [he] at h1
        exact Or.inl h1
    · simp [h1]

/-- Every original key recorded in the keymap is a key of the mapping, so
the `mapping[key]` access in the option loop cannot fail. -/
theorem keymapOf_good (mapping : List (String × OptionValue)) (s k : String)
    (h : dget (keymapOf mapping) s = some k) :
    (dget mapping k).isSome = true := by
  rcases keymapOf_aux_dget_some mapping [] s k h with h1 | h1
  · simp [dget] at h1
  · exact (dget_isSome_iff_mem mapping k).mpr h1

/-! ### Lemmas about the construction loop -/

/-- Options whose lowercased name differs from `s` leave the entries of
`_dict` and `_options` at `s` untouched. -/
theorem initLoop_preserve (mapping : List (String × OptionValue))
    (keymap : List (String × String)) (s : String) :
    ∀ (opts : List ExtOption) (d0 : List (String × OptionValue))
      (os0 : List (String × ExtOption)) (d : List (String × OptionValue))
      (os : List (String × ExtOption)),
      initLoop mapping keymap opts d0 os0 = .ok (d, os) →
      (∀ o ∈ opts, pyLower o.name ≠ s) →
      dget d s = dget d0 s ∧ dget os s = dget os0 s := by
  intro opts
  induction opts with
  | nil =>
    intro d0 os0 d os h _
    simp only [initLoop, Except.ok.injEq, Prod.mk.injEq] at h
    rw [h.1, h.2]
    exact ⟨rfl, rfl⟩
  | cons o rest ih =>
    intro d0 os0 d os h hne
    have hno : pyLower o.name ≠ s := hne o (List.mem_cons_self o rest)
    have hrest : ∀ o' ∈ rest, pyLower o'.name ≠ s :=
      fun o' hm => hne o' (List.mem_cons_of_mem o hm)
    simp only [initLoop] at h
    cases hk : dget keymap (pyLower o.name) with
    | some key =>
      cases hv : dget mapping key with
      | some v =>
        simp only [hk, hv] at h
        have := ih _ _ _ _ h hrest
        rwa [dget_dinsert, if_neg hno, dget_dinsert, if_neg hno] at this
      | none => simp [hk, hv] at h
    | none =>
      cases hreq : o.is_required with
      | true => simp [hk, hreq] at h
      | false =>
        cases hd : o.default with
        | some v =>
          simp only [hk, hreq, Bool.false_eq_true, if_false, hd] at h
          have := ih _ _ _ _ h hrest
          rwa [dget_dinsert, if_neg hno, dget_dinsert, if_neg hno] at this
        | none =>
          simp only [hk, hreq, Bool.false_eq_true, if_false, hd] at h
          have := ih _ _ _ _ h hrest
          rwa [dget_dinsert, if_neg hno] at this

/-- Every key of the resolved `_dict` is either inherited from the
accumulator or is the lowercased name of a processed option. -/
theorem initLoop_keys (mapping : List (String × OptionValue))
    (keymap : List (String × String)) (s : String) :
    ∀ (opts : List ExtOption) (d0 : List (String × OptionValue))
      (os0 : List (String × ExtOption)) (d : List (String × OptionValue))
      (os : List (String × ExtOption)),
      initLoop mapping keymap opts d0 os0 = .ok (d, os) →
      (dget d s).isSome = true →
      (dget d0 s).isSome = true ∨ ∃ o ∈ opts, pyLower o.name = s := by
  intro opts
  induction opts with
  | nil =>
    intro d0 os0 d os h hs
    simp only [initLoop, Except.ok.injEq, Prod.mk.injEq] at h
    rw [← h.1] at hs
    exact Or.inl hs
  | cons o rest ih =>
    intro d0 os0 d os h hs
    by_cases hname : pyLower o.name = s
    · exact Or.inr ⟨o, List.mem_cons_self o rest, hname⟩
    simp only [initLoop] at h
    cases hk : dget keymap (pyLower o.name) with
    | some key =>
      cases hv : dget mapping key with
      | some v =>
        simp only [hk, hv] at h
        rcases ih _ _ _ _ h hs with h1 | h1
        · rw [dget_dinsert, if_neg hname] at h1
          exact Or.inl h1
        · exact Or.inr (by
            rcases h1 with ⟨o', hm, he⟩
            exact ⟨o', List.mem_cons_of_mem o hm, he⟩)
      | none => simp [hk, hv] at h
    | none =>
      cases hreq : o.is_required with
      | true => simp [hk, hreq] at h
      | false =>
        cases hd : o.default with
        | some v =>
          simp only [hk, hreq, Bool.false_eq_true, if_false, hd] at h
          rcases ih _ _ _ _ h hs with h1 | h1
          · rw [dget_dinsert, if_neg hname] at h1
            exact Or.inl h1
          · rcases h1 with ⟨o', hm, he⟩
            exact Or.inr ⟨o', List.mem_cons_of_mem o hm, he⟩
        | none =>
          simp only [hk, hreq, Bool.false_eq_true, if_false, hd] at h
          rcases ih _ _ _ _ h hs with h1 | h1
          · exact Or.inl h1
          · rcases h1 with ⟨o', hm, he⟩
            exact Or.inr ⟨o', List.mem_cons_of_mem o hm, he⟩

/-- If some declared option is required and has no (case-insensitive) raw
key, the loop stops with `OptionRequiredError`; when every such option has
the same lowercased name `N`, the error names `N`. -/
theorem initLoop_required (mapping : List (String × OptionValue))
    (keymap : List (String × String)) (N : String)
    (hGood : ∀ s k, dget keymap s = some k → (dget mapping k).isSome = true) :
    ∀ (opts : List ExtOption) (d0 : List (String × OptionValue))
      (os0 : List (String × ExtOption)),
      (∃ o ∈ opts, o.is_required = true ∧ dget keymap (pyLower o.name) = none) →
      (∀ o ∈ opts, o.is_required = true → dget keymap (pyLower o.name) = none →
        pyLower o.name = N) →
      initLoop mapping keymap opts d0 os0 = .error (.optionRequiredError N) := by
  intro opts
  induction opts with
  | nil =>
    intro d0 os0 hex _
    rcases hex with ⟨o, ho, _⟩
    cases ho
  | cons o rest ih =>
    intro d0 os0 hex huniq
    simp only [initLoop]
    cases hk : dget keymap (pyLower o.name) with
    | some key =>
      have hkv := hGood _ _ hk
      rcases Option.isSome_iff_exists.mp hkv with ⟨v, hv⟩
      simp only [hv]
      apply ih
      · rcases hex with ⟨o', ho', hreq', hmiss'⟩
        rcases List.mem_cons.mp ho' with rfl | hm
        · rw [hk] at hmiss'; cases hmiss'
        · exact ⟨o', hm, hreq', hmiss'⟩
      · exact fun o' hm => huniq o' (List.mem_cons_of_mem o hm)
    | none =>
      cases hreq : o.is_required with
      | true =>
        simp only [if_true]
        rw [huniq o (List.mem_cons_self o rest) hreq hk]
      | false =>
        simp only [Bool.false_eq_true, if_false]
        have hnext : (∃ o' ∈ rest, o'.is_required = true ∧
            dget keymap (pyLower o'.name) = none) := by
          rcases hex with ⟨o', ho', hreq', hmiss'⟩
          rcases List.mem_cons.mp ho' with rfl | hm
          · rw [hreq] at hreq'; cases hreq'
          · exact ⟨o', hm, hreq', hmiss'⟩
        have huniq' := fun o' hm => huniq o' (List.mem_cons_of_mem o hm)
        cases hd : o.default with
        | some v => exact ih _ _ hnext huniq'
        | none => exact ih _ _ hnext huniq'

/-- A defaulted option with no supplied raw key ends up in `_dict` with its
default value, and in `_options` with its descriptor, provided no other
declared option shares its lowercased name. -/
theorem initLoop_default (mapping : List (String × OptionValue))
    (keymap : List (String × String)) (o : ExtOption) (v : OptionValue)
    (hmiss : dget keymap (pyLower o.name) = none) (hd : o.default = some v) :
    ∀ (opts : List ExtOption) (d0 : List (String × OptionValue))
      (os0 : List (String × ExtOption)) (d : List (String × OptionValue))
      (os : List (String × ExtOption)),
      initLoop mapping keymap opts d0 os0 = .ok (d, os) →
      o ∈ opts →
      (opts.map (fun x => pyLower x.name)).Nodup →
      dget d (pyLower o.name) = some v ∧ dget os (pyLower o.name) = some o := by
  intro opts
  induction opts with
  | nil =>
    intro d0 os0 d os _ ho _
    cases ho
  | cons o0 rest ih =>
    intro d0 os0 d os h ho hnodup
    have hnodup' : (rest.map (fun x => pyLower x.name)).Nodup :=
      (List.nodup_cons.mp hnodup).2
    rcases List.mem_cons.mp ho with rfl | homem
    · have hrest_ne : ∀ o' ∈ rest, pyLower o'.name ≠ pyLower o.name := by
        intro o' ho' heq
        apply (List.nodup_cons.mp hnodup).1
        have hm : pyLower o'.name ∈ rest.map (fun x => pyLower x.name) :=
          List.mem_map_of_mem _ ho'
        rwa [heq] at hm
      simp only [initLoop, hmiss] at h
      cases hreq : o.is_required with
      | true => simp [hreq] at h
      | false =>
        simp only [hreq, Bool.false_eq_true, if_false, hd] at h
        have hpres := initLoop_preserve mapping keymap (pyLower o.name)
          rest _ _ d os h hrest_ne
        rw [dget_dinsert, if_pos rfl, dget_dinsert, if_pos rfl] at hpres
        exact hpres
    · simp only [initLoop] at h
      cases hk : dget keymap (pyLower o0.name) with
      | some key =>
        cases hv : dget mapping key with
        | some v0 =>
          simp only [hk, hv] at h
          exact ih _ _ _ _ h homem hnodup'
        | none => simp [hk, hv] at h
      | none =>
        cases hreq : o0.is_required with
        | true => simp [hk, hreq] at h
        | false =>
          cases hd0 : o0.default with
          | some v0 =>
            simp only [hk, hreq, Bool.false_eq_true, if_false, hd0] at h
            exact ih _ _ _ _ h homem hnodup'
          | none =>
            simp only [hk, hreq, Bool.false_eq_true, if_false, hd0] at h
            exact ih _ _ _ _ h homem hnodup'

/-- Inversion for a successful construction: the option loop succeeded with
exactly the stored components and there were no extra keys. -/
theorem init_ok_elim (mapping : List (String × OptionValue))
    (options : List ExtOption) (dd : OptionDict)
    (h : OptionDict.init mapping options = .ok dd) :
    initLoop mapping (keymapOf mapping) options [] [] = .ok (dd.dict, dd.options) ∧
      extraKeysOf mapping dd.dict = [] := by
  unfold OptionDict.init at h
  cases hl : initLoop mapping (keymapOf mapping) options [] [] with
  | error e => rw [hl] at h; cases h
  | ok p =>
    obtain ⟨d, os⟩ := p
    rw [hl] at h
    simp only at h
    by_cases he : (extraKeysOf mapping d).isEmpty
    · rw [if_pos he] at h
      cases h
      exact ⟨rfl, List.isEmpty_iff.mp he⟩
    · rw [if_neg he] at h
      cases h

/-- What `casted()` stores under a key of `_dict`: the value cast through
the descriptor recorded for that key. -/
theorem castedLoop_dget (dd : OptionDict) :
    ∀ (l : List (String × OptionValue)) (m : List (String × Option OptionValue)),
      castedLoop dd l = .ok m →
      ∀ (s : String) (w : OptionValue) (opt : ExtOption) (cv : Option OptionValue),
        dget l s = some w →
        dget dd.options s = some opt →
        cast_option_value (dd.get s) opt = .ok cv →
        dget m s = some cv := by
  intro l
  induction l with
  | nil =>
    intro m _ s w opt cv hl
    simp [dget] at hl
  | cons kv rest ih =>
    intro m h s w opt cv hl hopt hcast
    obtain ⟨key, w0⟩ := kv
    simp only [castedLoop] at h
    cases hoptk : dget dd.options key with
    | none => simp [hoptk] at h
    | some option =>
      simp only [hoptk] at h
      cases hcastk : cast_option_value (dd.get key) option with
      | error e => simp [hcastk] at h
      | ok cv0 =>
        simp only [hcastk] at h
        cases hrest : castedLoop dd rest with
        | error e => simp [hrest] at h
        | ok r =>
          simp only [hrest, Except.ok.injEq] at h
          subst h
          by_cases hks : key = s
          · subst hks
            rw [dget, if_pos rfl]
            have hopt' : option = opt := by
              rw [hoptk] at hopt
              injection hopt
            rw [hopt'] at hcastk
            rw [hcastk] at hcast
            injection hcast with hcv
            rw [hcv]
          · rw [dget, if_neg hks]
            rw [dget, if_neg hks] at hl
            exact ih r hrest s w opt cv hl hopt hcast

/-! ### Sorting lemmas -/

theorem charsLe_total : ∀ as bs : List Char,
    charsLe as bs = true ∨ charsLe bs as = true := by
  intro as
  induction as with
  | nil => intro bs; exact Or.inl rfl
  | cons a as ih =>
    intro bs
    cases bs with
    | nil => exact Or.inr rfl
    | cons b bs =>
      rcases lt_trichotomy a b with h | h | h
      · left; simp [charsLe, h]
      · subst h
        rcases ih bs with h1 | h1
        · left; simp [charsLe, lt_irrefl, h1]
        · right; simp [charsLe, lt_irrefl, h1]
      · right; simp [charsLe, h]

theorem charsLe_trans : ∀ as bs cs : List Char,
    charsLe as bs = true → charsLe bs cs = true → charsLe as cs = true := by
  intro as
  induction as with
  | nil => intro bs cs _ _; rfl
  | cons a as ih =>
    intro bs cs h1 h2
    cases bs with
    | nil => simp [charsLe] at h1
    | cons b bs =>
      cases cs with
      | nil => simp [charsLe] at h2
      | cons c cs =>
        by_cases hab : a < b
        · by_cases hbc : b < c
          · simp [charsLe, lt_trans hab hbc]
          · by_cases hcb : c < b
            · simp [charsLe, hbc, hcb] at h2
            · have hbc' : b = c := le_antisymm (le_of_not_lt hcb) (le_of_not_lt hbc)
              subst hbc'
              simp [charsLe, hab]
        · by_cases hba : b < a
          · simp [charsLe, hab, hba] at h1
          · have hab' : a = b := le_antisymm (le_of_not_lt hba) (le_of_not_lt hab)
            subst hab'
            simp only [charsLe, lt_irrefl, if_false] at h1
            by_cases hac : a < c
            · simp [charsLe, hac]
            · by_cases hca : c < a
              · simp [charsLe, hac, hca] at h2
              · have hac' : a = c := le_antisymm (le_of_not_lt hca) (le_of_not_lt hac)
                subst hac'
                simp only [charsLe, lt_irrefl, if_false] at h2 ⊢
                exact ih bs cs h1 h2

instance : IsTotal String (fun a b => strLe a b = true) :=
  ⟨fun a b => charsLe_total a.data b.data⟩

instance : IsTrans String (fun a b => strLe a b = true) :=
  ⟨fun a b c => charsLe_trans a.data b.data c.data⟩

theorem sortStrings_perm (l : List String) : List.Perm (sortStrings l) l :=
  List.perm_insertionSort _ l

theorem mem_sortStrings (l : List String) (s : String) :
    s ∈ sortStrings l ↔ s ∈ l :=
  (sortStrings_perm l).mem_iff

theorem sortStrings_sorted (l : List String) :
    (sortStrings l).Sorted (fun a b => strLe a b = true) :=
  List.sorted_insertionSort _ l

/-- A lexicographically smaller char list refutes `charsLe` the other way. -/
theorem charsLe_eq_false_of_lex :
    ∀ {bs as : List Char}, List.Lex (· < ·) bs as → charsLe as bs = false := by
  intro bs as h
  induction h with
  | nil => rfl
  | @rel x l1 y l2 hxy => simp [charsLe, hxy, lt_asymm hxy]
  | @cons x l1 l2 _ ih => simp [charsLe, lt_irrefl, ih]

/-- The executable comparison implies the library order on strings. -/
theorem strLe_le (a b : String) (h : strLe a b = true) : a ≤ b := by
  apply le_of_not_lt
  intro hba
  rw [String.lt_iff_toList_lt] at hba
  have hba2 : List.Lex (· < ·) b.toList a.toList := hba
  have hf : charsLe a.data b.data = false := charsLe_eq_false_of_lex hba2
  rw [strLe] at h
  rw [h] at hf
  cases hf

theorem sortStrings_sorted_le (l : List String) :
    (sortStrings l).Sorted (· ≤ ·) :=
  List.Pairwise.imp (fun h => strLe_le _ _ h) (sortStrings_sorted l)

/-! ### Claim theorems -/

/-- C1: the spec states that the unknown-key set is computed with both
sides compared case-insensitively, so that raw `{"INDENT": "8"}` against
schema `[Option("Indent", INT)]` constructs successfully and
`casted()["indent"] == 8`. The code instead subtracts the LOWERCASED
resolved keys from the ORIGINAL-CASE raw keys, so that construction fails
with `ConfigurationError "Unknown options: INDENT"` even though the raw
value was matched and stored under `"indent"`; the same schema with the
already-lowercase raw key succeeds and casts to 8 exactly as the spec
expects. This evaluates the embedded code at the failing input. -/
theorem claim_C1_unknown_keys_case_bug :
    OptionDict.init [("INDENT", OptionValue.vStr "8")] [exOptIndentUC]
      = .error (.configurationError "Unknown options: INDENT") ∧
    OptionDict.init [("indent", OptionValue.vStr "8")] [exOptIndentUC]
      = .ok { dict := [("indent", OptionValue.vStr "8")]
              options := [("indent", exOptIndentUC)] } ∧
    OptionDict.casted
        { dict := [("indent", OptionValue.vStr "8")]
          options := [("indent", exOptIndentUC)] }
      = .ok [("indent", some (OptionValue.vInt 8))] :=
  ⟨rfl, rfl, rfl⟩

/-- C5: every one of the four coercions maps a `None` input to a `None`
output instead of raising. -/
theorem claim_C5_none_propagates :
    value_to_bool none = .ok none ∧
    value_to_int none = .ok none ∧
    value_to_float none = .ok none ∧
    value_to_string none = .ok none :=
  ⟨rfl, rfl, rfl, rfl⟩

/-- C7: item assignment on any constructed dictionary, for any key and
value, fails with the internal-misuse error; in this pure embedding no
updated dictionary is ever produced, so the contents are unchanged. -/
theorem claim_C7_setitem_always_fails :
    ∀ (d : OptionDict) (key : String) (value : OptionValue),
      OptionDict.setitem d key value
        = .error (.internalError "OptionDictionary is immutable") :=
  fun _ _ _ => rfl

/-- C10: an Option built without an explicit type is string-typed, and one
built without an explicit label takes its own name as the label; both are
ordinary non-error paths of the total constructor. -/
theorem claim_C10_option_defaults :
    (∀ (name : String) (default : Option OptionValue) (desc : Option String)
        (label : Option String) (req : Bool),
      (makeOption name none default desc label req).type = OptionType.str) ∧
    (∀ (name : String) (type : Option OptionType) (default : Option OptionValue)
        (desc : Option String) (req : Bool),
      (makeOption name type default desc none req).label = name) :=
  ⟨fun _ _ _ _ _ => rfl, fun _ _ _ _ _ => rfl⟩

/-- C4: `value_to_bool` is the identity on booleans; on numbers it returns
the truthiness comparison with zero; on strings it is `true` exactly on the
case-sensitive members of `TRUE_VALUES`, `false` exactly on those of
`FALSE_VALUES`, and a value error otherwise; including the three spec
examples. -/
theorem claim_C4_value_to_bool_table :
    (∀ b, value_to_bool (some (.vBool b)) = .ok (some b)) ∧
    (∀ n : Int, value_to_bool (some (.vInt n)) = .ok (some (decide (n ≠ 0)))) ∧
    (∀ q : Rat, value_to_bool (some (.vFloat q)) = .ok (some (decide (q ≠ 0)))) ∧
    (∀ s ∈ TRUE_VALUES, value_to_bool (some (.vStr s)) = .ok (some true)) ∧
    (∀ s ∈ FALSE_VALUES, value_to_bool (some (.vStr s)) = .ok (some false)) ∧
    (∀ s : String, s ∉ TRUE_VALUES → s ∉ FALSE_VALUES →
      value_to_bool (some (.vStr s)) = .error (.valueError s)) ∧
    value_to_bool (some (.vStr "yes")) = .ok (some true) ∧
    value_to_bool (some (.vStr "off")) = .ok (some false) ∧
    value_to_bool (some (.vStr "maybe")) = .error (.valueError "maybe") := by
  refine ⟨fun b => rfl, ?_, ?_, ?_, ?_, ?_, rfl, rfl, rfl⟩
  · intro n
    by_cases h : n = 0 <;> simp [value_to_bool, bne, h]
  · intro q
    by_cases h : q = 0 <;> simp [value_to_bool, bne, h]
  · intro s hs
    fin_cases hs <;> rfl
  · intro s hs
    fin_cases hs <;> rfl
  · intro s h1 h2
    simp only [value_to_bool]
    rw [if_neg h1, if_neg h2]

/-- C4 witness: the coercion table applied at fresh concrete strings. -/
theorem claim_C4_witness :
    value_to_bool (some (.vStr "on")) = .ok (some true) ∧
    value_to_bool (some (.vStr "no")) = .ok (some false) ∧
    value_to_bool (some (.vStr "perhaps")) = .error (.valueError "perhaps") :=
  ⟨claim_C4_value_to_bool_table.2.2.2.1 "on" (by decide),
   claim_C4_value_to_bool_table.2.2.2.2.1 "no" (by decide),
   claim_C4_value_to_bool_table.2.2.2.2.2.1 "perhaps" (by decide) (by decide)⟩

/-- C2: whenever a declared option is required and no raw key matches its
name case-insensitively, construction fails with `OptionRequiredError`
naming that (lowercased) option name, and no dictionary is produced. The
last hypothesis pins the name: every required-and-missing option of the
schema has the same lowercased name, so the error names exactly it (when
several distinct required options are missing, the loop names the first). -/
theorem claim_C2_required_missing (mapping : List (String × OptionValue))
    (options : List ExtOption) (o : ExtOption)
    (ho : o ∈ options) (hreq : o.is_required = true)
    (hmiss : ∀ kv ∈ mapping, pyLower kv.1 ≠ pyLower o.name)
    (honly : ∀ o' ∈ options, o'.is_required = true →
      (∀ kv ∈ mapping, pyLower kv.1 ≠ pyLower o'.name) →
      pyLower o'.name = pyLower o.name) :
    OptionDict.init mapping options
      = .error (.optionRequiredError (pyLower o.name)) := by
  have hkm : dget (keymapOf mapping) (pyLower o.name) = none :=
    (keymapOf_dget_none _ _).mpr hmiss
  have hloop := initLoop_required mapping (keymapOf mapping) (pyLower o.name)
    (keymapOf_good mapping) options [] []
    ⟨o, ho, hreq, hkm⟩
    (fun o' hm hr hmiss' => honly o' hm hr ((keymapOf_dget_none _ _).mp hmiss'))
  unfold OptionDict.init
  rw [hloop]

/-- C2 witness: schema `[Option("x", STR, is_required=True)]` with raw `{}`
fails naming `"x"`. -/
theorem claim_C2_witness :
    OptionDict.init [] [exOptXReq] = .error (.optionRequiredError "x") :=
  claim_C2_required_missing [] [exOptXReq] exOptXReq (by simp) rfl
    (by simp)
    (by
      intro o' hm _ _
      simp only [List.mem_singleton] at hm
      rw [hm])

/-- C3: when construction fails on unknown keys, the configuration error
message joins ALL the offending keys, sorted, with ", " (no fail-fast on
the first), the listed key sequence is sorted, and it contains every raw
key that matches no declared option case-insensitively. -/
theorem claim_C3_unknown_options_all_listed (mapping : List (String × OptionValue))
    (options : List ExtOption) (d : List (String × OptionValue))
    (os : List (String × ExtOption))
    (hloop : initLoop mapping (keymapOf mapping) options [] [] = .ok (d, os))
    (hne : extraKeysOf mapping d ≠ []) :
    OptionDict.init mapping options
      = .error (.configurationError
          ("Unknown options: "
            ++ String.intercalate ", " (sortStrings (extraKeysOf mapping d)))) ∧
    (sortStrings (extraKeysOf mapping d)).Sorted (· ≤ ·) ∧
    ∀ k ∈ mapping.map Prod.fst,
      (∀ o ∈ options, pyLower o.name ≠ pyLower k) →
      k ∈ sortStrings (extraKeysOf mapping d) := by
  refine ⟨?_, sortStrings_sorted_le _, ?_⟩
  · unfold OptionDict.init
    rw [hloop]
    simp only
    rw [if_neg (by simpa [List.isEmpty_iff] using hne)]
  · intro k hk hnomatch
    rw [mem_sortStrings]
    rw [extraKeysOf, List.mem_dedup, List.mem_filter]
    refine ⟨hk, ?_⟩
    cases hdk : dget d k with
    | none => simp
    | some v =>
      exfalso
      have hsome : (dget d k).isSome = true := by rw [hdk]; rfl
      rcases initLoop_keys mapping (keymapOf mapping) k options [] [] d os
          hloop hsome with h1 | h1
      · simp [dget] at h1
      · rcases h1 with ⟨o, homem, hname⟩
        apply hnomatch o homem
        rw [← hname, pyLower_idem]

/-- C3 witness: schema `[Option("x", STR)]` with raw
`{"x": "1", "y": "2"}` fails mentioning `"y"`, and `"y"` is in the listed
key sequence. -/
theorem claim_C3_witness :
    OptionDict.init [("x", OptionValue.vStr "1"), ("y", OptionValue.vStr "2")]
        [exOptX]
      = .error (.configurationError "Unknown options: y") ∧
    "y" ∈ sortStrings (extraKeysOf
        [("x", OptionValue.vStr "1"), ("y", OptionValue.vStr "2")]
        [("x", OptionValue.vStr "1")]) :=
  have h := claim_C3_unknown_options_all_listed
    [("x", OptionValue.vStr "1"), ("y", OptionValue.vStr "2")] [exOptX]
    [("x", OptionValue.vStr "1")] [("x", exOptX)] rfl (by decide)
  ⟨h.1, h.2.2 "y" (by decide)
    (by
      intro o homem
      simp only [List.mem_singleton] at homem
      rw [homem]
      decide)⟩

/-- C6: a declared option with a non-null default and no case-insensitively
matching raw key (its lowercased name unique in the schema) is stored under
its lowercased name with the default value, its descriptor is recorded, and
any successful `casted()` maps that name to the default run through the
coercion for the declared type. -/
theorem claim_C6_default_applied (mapping : List (String × OptionValue))
    (options : List ExtOption) (o : ExtOption) (v : OptionValue)
    (dd : OptionDict)
    (h : OptionDict.init mapping options = .ok dd)
    (ho : o ∈ options) (hd : o.default = some v)
    (hmiss : ∀ kv ∈ mapping, pyLower kv.1 ≠ pyLower o.name)
    (hnodup : (options.map (fun x => pyLower x.name)).Nodup) :
    dget dd.dict (pyLower o.name) = some v ∧
    dget dd.options (pyLower o.name) = some o ∧
    ∀ (m : List (String × Option OptionValue)) (cv : Option OptionValue),
      OptionDict.casted dd = .ok m →
      cast_option_value (some v) o = .ok cv →
      dget m (pyLower o.name) = some cv := by
  have hkm : dget (keymapOf mapping) (pyLower o.name) = none :=
    (keymapOf_dget_none _ _).mpr hmiss
  obtain ⟨hloop, -⟩ := init_ok_elim mapping options dd h
  have hdef := initLoop_default mapping (keymapOf mapping) o v hkm hd
    options [] [] dd.dict dd.options hloop ho hnodup
  refine ⟨hdef.1, hdef.2, ?_⟩
  intro m cv hm hcast
  have hget : OptionDict.get dd (pyLower o.name) = some v := by
    show dget dd.dict (pyLower (pyLower o.name)) = some v
    rw [pyLower_idem]
    exact hdef.1
  exact castedLoop_dget dd dd.dict m hm (pyLower o.name) v o cv hdef.1 hdef.2
    (by rw [hget]; exact hcast)

/-- C6 witness: raw `{}` against schema `[Option("indent", INT, default=4)]`
stores 4 under `"indent"` and `casted()["indent"] == 4`. -/
theorem claim_C6_witness :
    dget exDict6.dict "indent" = some (OptionValue.vInt 4) ∧
    dget exCasted6 "indent" = some (some (OptionValue.vInt 4)) :=
  have h := claim_C6_default_applied [] [exOptIndent4] exOptIndent4
    (OptionValue.vInt 4) exDict6 rfl (by simp) rfl (by simp) (by decide)
  ⟨h.1, h.2.2 exCasted6 (some (OptionValue.vInt 4)) rfl rfl⟩

/-- C8: a name present in `classes` is returned as-is, with no load invoked
and the catalog unchanged; a name absent from both mappings fails with the
internal error naming the extension and the extension-point type; a name
absent from `classes` but present in `modules` triggers the load, then
either returns the class the load registered or fails with the internal
error naming the extension and the (post-load) extension-point type. -/
theorem claim_C8_extension_lookup {C : Type}
    (load : String → ExtensionRegistry C → ExtensionRegistry C)
    (r : ExtensionRegistry C) (name : String) :
    (∀ c, dget r.classes name = some c →
      ExtensionRegistry.extension load r name = .ok (c, r)) ∧
    (dget r.classes name = none → dget r.modules name = none →
      ExtensionRegistry.extension load r name
        = .error (.internalError (unknownExtensionMsg name r.name))) ∧
    (∀ mod c, dget r.classes name = none → dget r.modules name = some mod →
      dget (load mod r).classes name = some c →
      ExtensionRegistry.extension load r name = .ok (c, load mod r)) ∧
    (∀ mod, dget r.classes name = none → dget r.modules name = some mod →
      dget (load mod r).classes name = none →
      ExtensionRegistry.extension load r name
        = .error (.internalError (unknownExtensionMsg name (load mod r).name))) := by
  refine ⟨?_, ?_, ?_, ?_⟩
  · intro c hc
    unfold ExtensionRegistry.extension
    simp only [hc]
  · intro hc hm
    unfold ExtensionRegistry.extension
    simp only [hc, hm]
  · intro mod c hc hm hl
    unfold ExtensionRegistry.extension
    simp only [hc, hm, hl]
  · intro mod hc hm hl
    unfold ExtensionRegistry.extension
    simp only [hc, hm, hl]

/-- C8 witness: an unknown name on an empty catalog fails with the internal
error naming the extension and the extension-point type. -/
theorem claim_C8_witness :
    ExtensionRegistry.extension exLoadNothing exRegistryPrinter "nope"
      = .error (.internalError
          "Unknown extension \x27nope\x27 of type \x27printer\x27") :=
  (claim_C8_extension_lookup exLoadNothing exRegistryPrinter "nope").2.1 rfl rfl

/-- C9: `registered_names()` is sorted, duplicate-free, and contains a name
exactly when it is a key of the eager `classes` mapping or of the lazy
`modules` mapping, resolved or not. -/
theorem claim_C9_registered_names {C : Type} (r : ExtensionRegistry C) :
    (ExtensionRegistry.registered_names r).Sorted (· ≤ ·) ∧
    (ExtensionRegistry.registered_names r).Nodup ∧
    ∀ s, s ∈ ExtensionRegistry.registered_names r ↔
      s ∈ r.classes.map Prod.fst ∨ s ∈ r.modules.map Prod.fst := by
  refine ⟨sortStrings_sorted_le _, ?_, ?_⟩
  · have hperm := sortStrings_perm
      ((r.classes.map Prod.fst ++ r.modules.map Prod.fst).dedup)
    exact hperm.nodup_iff.mpr (List.nodup_dedup _)
  · intro s
    rw [ExtensionRegistry.registered_names, mem_sortStrings, List.mem_dedup,
      List.mem_append]

end Extensible
